import Mathlib

/-!
Verification development for the template resolution and merge engine of
the git-ignore-auto repository (Rust sources: src/data.rs, src/ignore.rs).

Strings are modelled as lists of characters (Rust String / str values);
this file embeds the catalog data model, name resolution, listing/search,
the capitalization normalizer, and the fetch-and-merge routine, and proves
or refutes the frozen specification claims about them.
-/

namespace GitIgnore

/-- Rust strings are modelled as lists of characters. -/
abbrev Str := List Char

/-- Conversion from Lean string literals to the model's string type. -/
def str (s : String) : Str := s.data

/-! ### Catalog data model (src/data.rs, enum Type) -/

/-- Embedding of the Rust enum Type from src/data.rs: Vendor Template,
Alias, and User Template entries of the unified catalog.  (Named Ty since
Type is reserved in Lean.) -/
inductive Ty where
  | template (key : Str) (content : Str)
  | alias (key : Str) (aliases : List Str)
  | userTemplate (key : Str) (content : Str)
deriving DecidableEq, Repr

/-- Embedding of Type::key from src/data.rs. -/
def Ty.key : Ty → Str
  | .template k _ => k
  | .alias k _ => k
  | .userTemplate k _ => k

/-- Embedding of IgnoreData::get_template from src/data.rs: the first
Vendor Template entry whose key equals the requested name. -/
def get_template (data : List Ty) (name : Str) : Option Str :=
  match data with
  | [] => none
  | .template k c :: rest => if k = name then some c else get_template rest name
  | _ :: rest => get_template rest name

/-- Embedding of IgnoreData::get_alias from src/data.rs: the first Alias
entry whose key equals the requested name. -/
def get_alias (data : List Ty) (name : Str) : Option (List Str) :=
  match data with
  | [] => none
  | .alias k v :: rest => if k = name then some v else get_alias rest name
  | _ :: rest => get_alias rest name

/-- Embedding of IgnoreData::get_user_template from src/data.rs: the first
User Template entry whose key equals the requested name. -/
def get_user_template (data : List Ty) (name : Str) : Option Str :=
  match data with
  | [] => none
  | .userTemplate k c :: rest => if k = name then some c else get_user_template rest name
  | _ :: rest => get_user_template rest name

/-! ### Name resolution (src/data.rs, get_templates)

The inner loop of get_templates over an alias's targets: each target is
looked up as a User Template first, then a Vendor Template; a target that
is neither contributes nothing and emits the "No such alias" report (the
code prints the requested name, not the target).  Reports are collected
as the list of printed names. -/

/-- Target loop of get_templates (src/data.rs lines 338-347): content and
emitted error reports, in order. -/
def resolveTargets (data : List Ty) (name : Str) : List Str → Str × List Str
  | [] => ([], [])
  | t :: rest =>
      let hd : Str × List Str :=
        match get_user_template data t with
        | some v => (v, [])
        | none =>
          match get_template data t with
          | some v => (v, [])
          | none => ([], [name])
      let tl := resolveTargets data name rest
      (hd.1 ++ tl.1, hd.2 ++ tl.2)

/-- Per-name step of get_templates (src/data.rs lines 335-351): User
Template first, else Alias (one level), else Vendor Template, else
nothing. -/
def resolveName (data : List Ty) (name : Str) : Str × List Str :=
  match get_user_template data name with
  | some v => (v, [])
  | none =>
    match get_alias data name with
    | some targets => resolveTargets data name targets
    | none =>
      match get_template data name with
      | some v => (v, [])
      | none => ([], [])

/-- Header line prepended by get_templates when the merged result is
non-empty (src/data.rs lines 353-362). -/
def templatesHeader (names : List Str) : Str :=
  str "\n\n### Sourced from github/gitignore for: "
    ++ (names.intersperse (str ", ")).flatten
    ++ str " ###\n"

/-- Embedding of get_templates from src/data.rs: concatenates the
per-name resolutions in order and, when non-empty, prefixes the header;
the second component collects the "No such alias" reports. -/
def get_templates (data : List Ty) (names : List Str) : Str × List Str :=
  let body := names.foldr
    (fun n acc => let r := resolveName data n; (r.1 ++ acc.1, r.2 ++ acc.2))
    (([], []) : Str × List Str)
  if body.1 = [] then body else (templatesHeader names ++ body.1, body.2)

/-! ### Claims C1 and C2: precedence and one-level alias expansion -/

/-- Concatenation splits resolveTargets over appended target lists. -/
theorem resolveTargets_append (data : List Ty) (name : Str) (xs ys : List Str) :
    resolveTargets data name (xs ++ ys) =
      ((resolveTargets data name xs).1 ++ (resolveTargets data name ys).1,
       (resolveTargets data name xs).2 ++ (resolveTargets data name ys).2) := by
  induction xs with
  | nil => simp [resolveTargets]
  | cons t rest ih =>
      simp only [List.cons_append, resolveTargets]
      rw [show rest.append ys = rest ++ ys from rfl, ih]
      simp [List.append_assoc]

/-- C1: if both a User Template and a Vendor Template exist in the catalog
under the requested name, get_templates resolves that name to the User
Template's content (with no error report), never the Vendor Template's
content; accordingly get_templates on that single name yields the header
plus the User Template's content when it is non-empty. -/
theorem C1_user_template_precedence (data : List Ty) (name u v : Str)
    (hu : get_user_template data name = some u)
    (hv : get_template data name = some v) :
    resolveName data name = (u, []) ∧
      get_templates data [name] =
        if u = [] then ([], []) else (templatesHeader [name] ++ u, []) := by
  have h1 : resolveName data name = (u, []) := by
    simp [resolveName, hu]
  refine ⟨h1, ?_⟩
  simp only [get_templates, List.foldr, h1]
  by_cases hue : u = [] <;> simp [hue]

/-- C1 witness: a concrete catalog holding both a Vendor Template and a
User Template under the key a. -/
theorem C1_user_template_precedence_witness :
    resolveName [Ty.template (str "a") (str "vendor"),
                 Ty.userTemplate (str "a") (str "user")] (str "a")
      = (str "user", []) ∧
      get_templates [Ty.template (str "a") (str "vendor"),
                     Ty.userTemplate (str "a") (str "user")] [str "a"]
        = if str "user" = [] then ([], [])
          else (templatesHeader [str "a"] ++ str "user", []) :=
  C1_user_template_precedence _ _ _ (str "vendor") (by decide) (by decide)

/-- C2: alias expansion is one level only.  If the requested name is not a
User Template but is an Alias, and one of its targets resolves to neither
a User Template nor a Vendor Template (even though it is itself an Alias),
that target contributes no content, emits exactly one "No such alias"
report, and the remaining targets before and after it are processed
normally. -/
theorem C2_alias_one_level (data : List Ty) (name t : Str)
    (ts1 ts2 : List Str) (a : List Str)
    (hu : get_user_template data name = none)
    (ha : get_alias data name = some (ts1 ++ t :: ts2))
    (htu : get_user_template data t = none)
    (htv : get_template data t = none)
    (hta : get_alias data t = some a) :
    resolveName data name =
      ((resolveTargets data name ts1).1 ++ (resolveTargets data name ts2).1,
       (resolveTargets data name ts1).2 ++ name :: (resolveTargets data name ts2).2) := by
  have hmid : resolveTargets data name (t :: ts2) =
      ((resolveTargets data name ts2).1, name :: (resolveTargets data name ts2).2) := by
    simp [resolveTargets, htu, htv]
  simp [resolveName, hu, ha, resolveTargets_append, hmid]

/-- Concrete catalog for the C2 witness: the alias a targets x (a Vendor
Template) and b, where b exists only as an alias. -/
def exCat2 : List Ty :=
  [Ty.alias (str "a") [str "x", str "b"],
   Ty.alias (str "b") [str "c"],
   Ty.template (str "x") (str "X")]

/-- C2 witness: requesting a resolves the alias a whose target b exists
only as an alias; b contributes nothing but one report naming a. -/
theorem C2_alias_one_level_witness :
    resolveName exCat2 (str "a") =
      ((resolveTargets exCat2 (str "a") [str "x"]).1 ++
       (resolveTargets exCat2 (str "a") []).1,
       (resolveTargets exCat2 (str "a") [str "x"]).2 ++
        str "a" :: (resolveTargets exCat2 (str "a") []).2) :=
  C2_alias_one_level exCat2 (str "a") (str "b") [str "x"] [] [str "c"]
    (by decide) (by decide) (by decide) (by decide) (by decide)

/-! ### Listing and search (src/data.rs, TypeName, keys, list)

TypeName carries the variant kind and the key; its PartialEq/Ord
implementations in the source compare only the inner key string
(case-sensitive byte order, which for the List Char model is the
lexicographic order by code point). -/

/-- Embedding of enum TypeName from src/data.rs. -/
inductive TypeName where
  | template (name : Str)
  | alias (name : Str)
  | userTemplate (name : Str)
deriving DecidableEq, Repr

/-- Embedding of TypeName::inner from src/data.rs. -/
def TypeName.inner : TypeName → Str
  | .template n => n
  | .alias n => n
  | .userTemplate n => n

/-- Embedding of the From impl for TypeName in src/data.rs. -/
def TypeNameOf : Ty → TypeName
  | .template k _ => .template k
  | .alias k _ => .alias k
  | .userTemplate k _ => .userTemplate k

/-- Substring containment, the model of Rust str::contains with a string
pattern: some contiguous run of hay equals pat. -/
def strContains (hay pat : Str) : Bool :=
  match hay with
  | [] => pat.isEmpty
  | _ :: t => pat.isPrefixOf hay || strContains t pat

/-- Embedding of TypeName::contains from src/data.rs. -/
def TypeName.contains (tn : TypeName) (name : Str) : Bool :=
  strContains tn.inner name

/-- Embedding of the Ord impl for TypeName in src/data.rs: comparison of
the inner keys only (lexicographic by code point), ignoring the variant. -/
def tnLe (a b : TypeName) : Prop := a.inner ≤ b.inner

instance : DecidableRel tnLe :=
  fun a b => inferInstanceAs (Decidable (a.inner ≤ b.inner))

instance : IsTotal TypeName tnLe := ⟨fun a b => le_total a.inner b.inner⟩

instance : IsTrans TypeName tnLe := ⟨fun _ _ _ h1 h2 => le_trans h1 h2⟩

/-- Embedding of list from src/data.rs, up to the final line formatting:
with no names every key is kept, otherwise each entry is pushed once per
requested name it contains; the result is sorted with the key-only
TypeName order (the source's sort_unstable). -/
def listNames (data : List Ty) (names : List Str) : List TypeName :=
  let templates := data.map TypeNameOf
  let result :=
    if names.isEmpty then templates
    else templates.flatMap
      (fun e => names.filterMap (fun n => if e.contains n then some e else none))
  List.insertionSort tnLe result

/-- Embedding of the final formatting of list from src/data.rs: each
entry becomes a two-space indented line (the Display colour escapes,
which depend on terminal detection, are omitted). -/
def list (data : List Ty) (names : List Str) : Str :=
  (listNames data names).flatMap (fun r => str "  " ++ r.inner ++ ['\n'])

/-! ### Claim C3: catalog ordering of listing output -/

/-- Ordering asserted by the specification for listing output: Vendor
Template before Alias before User Template, ties broken by key. -/
def kindRank : TypeName → Nat
  | .template _ => 0
  | .alias _ => 1
  | .userTemplate _ => 2

/-- Order relation claimed by the specification for listing output. -/
def specOrderLe (a b : TypeName) : Prop :=
  kindRank a < kindRank b ∨ (kindRank a = kindRank b ∧ a.inner ≤ b.inner)

instance : DecidableRel specOrderLe :=
  fun a b => inferInstanceAs (Decidable (_ ∨ _))

/-- Catalog for the C3 counterexample: a Vendor Template keyed b and a
User Template keyed a (in the kind-sorted order catalog construction
produces). -/
def exCat3 : List Ty :=
  [Ty.template (str "b") (str "B"), Ty.userTemplate (str "a") (str "A")]

/-- C3 counterexample: listing this catalog puts the User Template key a
before the Vendor Template key b, so the output is not ordered with all
Vendor Templates first as the claim states. -/
theorem C3_counterexample :
    listNames exCat3 [] =
      [TypeName.userTemplate (str "a"), TypeName.template (str "b")] ∧
    ¬ specOrderLe (TypeName.userTemplate (str "a")) (TypeName.template (str "b")) := by
  decide

/-- C3 amended: listing/search output is sorted purely by case-sensitive
key comparison, interleaving the variants (the key-only TypeName order);
with no search names the output is a permutation of all catalog entries. -/
theorem C3_amended_sorted_by_key (data : List Ty) (names : List Str) :
    List.Pairwise tnLe (listNames data names) ∧
      (listNames data []).Perm (data.map TypeNameOf) := by
  constructor
  · exact List.sorted_insertionSort tnLe _
  · simpa [listNames] using List.perm_insertionSort tnLe (data.map TypeNameOf)

/-! ### Claim C4: search OR-matching and duplicate emission -/

/-- Catalog for the C4 counterexample: one Vendor Template whose key
contains both searched substrings. -/
def exCat4 : List Ty := [Ty.template (str "ab") []]

/-- C4 counterexample: searching the two substrings a and b emits the
qualifying key ab twice, not once, because the inner loop pushes the
entry once per matching substring. -/
theorem C4_counterexample :
    strContains (str "ab") (str "a") = true ∧
    strContains (str "ab") (str "b") = true ∧
    ((listNames exCat4 [str "a", str "b"]).map TypeName.inner).count (str "ab") = 2 := by
  decide

/-- Key multiplicity contributed by a single entry for one pass over the
requested substrings. -/
theorem count_inner_filterMap (e : TypeName) (names : List Str) (k : Str) :
    ((names.filterMap
        (fun n => if e.contains n then some e else none)).map TypeName.inner).count k
      = if e.inner = k then names.countP (fun n => e.contains n) else 0 := by
  induction names with
  | nil => simp
  | cons n rest ih =>
      by_cases h : e.contains n
      · by_cases hk : e.inner = k <;>
          simp [List.filterMap_cons, h, List.countP_cons, ih, hk, List.count_cons]
      · simp [List.filterMap_cons, h, List.countP_cons, ih]

/-- Key multiplicity of the accumulated (unsorted) search result. -/
theorem count_inner_flatMap (l : List TypeName) (names : List Str) (k : Str) :
    ((l.flatMap
        (fun e => names.filterMap
          (fun n => if e.contains n then some e else none))).map TypeName.inner).count k
      = (l.map
          (fun e => if e.inner = k then names.countP (fun n => e.contains n) else 0)).sum := by
  induction l with
  | nil => simp
  | cons e rest ih =>
      simp [List.flatMap_cons, List.map_append, List.count_append, ih,
        count_inner_filterMap]

/-- C4 amended: with a non-empty substring list, every catalog key
appears in the search output once per (entry, matching substring) pair —
a key whose entry matches m of the substrings appears m times, not
exactly once; with no substrings every entry appears once.  (Stated as an
exact multiplicity count of the output keys.) -/
theorem C4_amended_match_multiplicity (data : List Ty) (names : List Str) (k : Str) :
    ((listNames data names).map TypeName.inner).count k =
      if names.isEmpty then ((data.map TypeNameOf).map TypeName.inner).count k
      else ((data.map TypeNameOf).map
        (fun e => if e.inner = k then names.countP (fun n => e.contains n) else 0)).sum := by
  by_cases h : names.isEmpty
  · have hp := (List.perm_insertionSort tnLe (data.map TypeNameOf)).map TypeName.inner
    have e1 : listNames data names = List.insertionSort tnLe (data.map TypeNameOf) := by
      simp [listNames, h]
    rw [e1, if_pos h]
    simp only [List.count_eq_countP]
    exact hp.countP_eq _
  · have hp := (List.perm_insertionSort tnLe
      ((data.map TypeNameOf).flatMap
        (fun e => names.filterMap
          (fun n => if e.contains n then some e else none)))).map TypeName.inner
    have e1 : listNames data names = List.insertionSort tnLe
        ((data.map TypeNameOf).flatMap
          (fun e => names.filterMap
            (fun n => if e.contains n then some e else none))) := by
      simp [listNames, h]
    rw [e1, if_neg h, ← count_inner_flatMap]
    simp only [List.count_eq_countP]
    exact hp.countP_eq _

/-! ### Capitalization normalizer (src/ignore.rs, capitalize_template_spec)

Character classes mirror the Rust predicates on the ASCII range:
is_ascii_lowercase / is_ascii_uppercase are the ASCII letter tests, and
is_alphanumeric holds for letters and digits (the source's Unicode
alphanumeric test restricted to ASCII, which is the range exercised
here). -/

/-- Model of Rust char::is_ascii_lowercase. -/
def isAsciiLowercase (c : Char) : Bool := 'a' ≤ c && c ≤ 'z'

/-- Model of Rust char::is_ascii_uppercase. -/
def isAsciiUppercase (c : Char) : Bool := 'A' ≤ c && c ≤ 'Z'

/-- Model of Rust char::is_alphanumeric on the ASCII range. -/
def isAlphanumeric (c : Char) : Bool :=
  isAsciiLowercase c || isAsciiUppercase c || ('0' ≤ c && c ≤ '9')

/-- Model of Rust char::to_ascii_uppercase. -/
def toAsciiUppercase (c : Char) : Char :=
  if isAsciiLowercase c then Char.ofNat (c.toNat - 32) else c

/-- Flag update performed after each character of the per-segment loop in
capitalize_template_spec: the first statement clears the flag when a
lowercase character was just capitalized, the second sets it after a
non-alphanumeric character and otherwise clears a still-set flag. -/
def capStep (capNext : Bool) (c : Char) : Bool :=
  let n1 := if capNext && isAsciiLowercase c then false else capNext
  if !isAlphanumeric c then true else if n1 then false else n1

/-- Character loop of capitalize_template_spec over one slash segment:
a pending flag capitalizes an ASCII lowercase character. -/
def capLoop (capNext : Bool) : Str → Str
  | [] => []
  | c :: rest =>
      (if capNext && isAsciiLowercase c then toAsciiUppercase c else c)
        :: capLoop (capStep capNext c) rest

/-- Per-segment transform of capitalize_template_spec: a segment that
already contains an ASCII uppercase character is left untouched,
otherwise the capitalization loop runs with the flag initially set. -/
def capitalizePart (part : Str) : Str :=
  if part.any isAsciiUppercase then part else capLoop true part

/-- Model of Rust str::split on the slash character: always a non-empty
list of (possibly empty) segments. -/
def splitSlash : Str → List Str
  | [] => [[]]
  | c :: rest =>
      if c = '/' then [] :: splitSlash rest
      else
        match splitSlash rest with
        | [] => [[c]]
        | s :: ss => (c :: s) :: ss

/-- Embedding of capitalize_template_spec from src/ignore.rs: split on
slash, transform each segment, and re-join with slashes. -/
def capitalize_template_spec (spec : Str) : Str :=
  (((splitSlash spec).map capitalizePart).intersperse (str "/")).flatten

/-! ### Claim C5: behaviour of the capitalization normalizer -/

/-- C5 counterexample: in a4b, the digit 4 does not set up the following
letter for capitalization — it consumes a pending flag instead — so the
code produces A4b, while the claim (digits are segment-breaking for
capitalization) requires A4B. -/
theorem C5_counterexample :
    capitalize_template_spec (str "a4b") = str "A4b" ∧
      capitalize_template_spec (str "a4b") ≠ str "A4B" := by
  decide

/-- C5 amended: per slash segment an already-uppercase-containing segment
is untouched; otherwise a character is capitalized exactly when it is
ASCII lowercase and the pending flag is set, and after any character the
flag is set exactly when that character is non-alphanumeric (so the flag
is initially set, every non-alphanumeric character triggers it, and a
digit clears it rather than triggering it).  The claim's concrete
examples hold. -/
theorem C5_amended_normalizer :
    (∀ (b : Bool) (c : Char) (rest : Str),
      capLoop b (c :: rest) =
        (if b && isAsciiLowercase c then toAsciiUppercase c else c)
          :: capLoop (!isAlphanumeric c) rest) ∧
    capitalize_template_spec (str "visualstudio") = str "Visualstudio" ∧
    capitalize_template_spec (str "macos") = str "Macos" ∧
    capitalize_template_spec (str "C") = str "C" ∧
    capitalize_template_spec (str "global/linux") = str "Global/Linux" ∧
    capitalize_template_spec (str "visual-studio-code") = str "Visual-Studio-Code" := by
  refine ⟨?_, by decide, by decide, by decide, by decide, by decide⟩
  intro b c rest
  have hstep : capStep b c = !isAlphanumeric c := by
    cases b <;> simp [capStep]
  rw [capLoop, hstep]

/-! ### Catalog construction (src/data.rs, read_templates_from_dir and
IgnoreData::new)

A directory is modelled as Option (List FEntry): none when the directory
does not exist (or is not a directory), some with the entries read_dir
yields otherwise.  Each entry carries the path attributes the code
inspects and the outcome of reading the file. -/

/-- Directory entry attributes used by read_templates_from_dir. -/
structure FEntry where
  isFile : Bool
  ext : Option Str
  stem : Option Str
  content : Except Str Str
deriving Repr

/-- Entry loop of read_templates_from_dir: files with extension
gitignore and a readable stem become Vendor Templates (prefixed when a
base key prefix is given); a file read failure aborts with the error. -/
def readTemplatesLoop (baseKeyPfx : Option Str) : List FEntry → Except Str (List Ty)
  | [] => .ok []
  | e :: rest =>
      if e.isFile then
        match e.ext with
        | some x =>
            if x = str "gitignore" then
              match e.stem with
              | some st =>
                  let key := match baseKeyPfx with
                    | some p => p ++ str "/" ++ st
                    | none => st
                  match e.content with
                  | .ok c => (readTemplatesLoop baseKeyPfx rest).map (Ty.template key c :: ·)
                  | .error err => .error err
              | none => readTemplatesLoop baseKeyPfx rest
            else readTemplatesLoop baseKeyPfx rest
        | none => readTemplatesLoop baseKeyPfx rest
      else readTemplatesLoop baseKeyPfx rest

/-- Embedding of read_templates_from_dir from src/data.rs: a missing (or
non-directory) path yields zero entries and no error. -/
def read_templates_from_dir (dir : Option (List FEntry)) (baseKeyPfx : Option Str) :
    Except Str (List Ty) :=
  match dir with
  | none => .ok []
  | some entries => readTemplatesLoop baseKeyPfx entries

/-- User configuration as IgnoreData::new consumes it: alias mappings and
user template mappings, each template with the outcome of
UserData::read_template on its path. -/
structure UserDataM where
  aliases : List (Str × List Str)
  templates : List (Str × Except Str Str)

/-- Variant rank of the Ord impl for Type in src/data.rs: Vendor
Template below Alias below User Template, equal within a variant. -/
def tyRank : Ty → Nat
  | .template .. => 0
  | .alias .. => 1
  | .userTemplate .. => 2

/-- Embedding of the Ord impl for Type (kind-only comparison). -/
def tyLe (a b : Ty) : Prop := tyRank a ≤ tyRank b

instance : DecidableRel tyLe :=
  fun a b => inferInstanceAs (Decidable (tyRank a ≤ tyRank b))

/-- Embedding of IgnoreData::new from src/data.rs: vendor templates from
the repository root, vendor templates from the Global subdirectory with
the Global/ key prefix, then aliases and user templates from the user
configuration (a user template read failure is fatal), sorted with the
kind-only Type order (the source's sort_unstable). -/
def IgnoreData_new (root globalDir : Option (List FEntry)) (ud : UserDataM) :
    Except Str (List Ty) := do
  let v1 ← read_templates_from_dir root none
  let v2 ← read_templates_from_dir globalDir (some (str "Global"))
  let als := ud.aliases.map (fun p => Ty.alias p.1 p.2)
  let uts ← ud.templates.mapM (fun p => p.2.map (fun c => Ty.userTemplate p.1 c))
  pure (List.insertionSort tyLe (v1 ++ v2 ++ als ++ uts))

/-! ### Claim C9: missing template store directories are not an error -/

/-- Collecting the user templates succeeds and yields only User Template
entries when every declared template file was readable. -/
theorem mapM_user_templates (ts : List (Str × Except Str Str))
    (h : ∀ p ∈ ts, ∃ c, p.2 = Except.ok c) :
    ∃ l, ts.mapM (fun p => p.2.map (fun c => Ty.userTemplate p.1 c)) = Except.ok l ∧
      ∀ t ∈ l, tyRank t = 2 := by
  induction ts with
  | nil => exact ⟨[], rfl, by simp⟩
  | cons p rest ih =>
      obtain ⟨c, hc⟩ := h p (by simp)
      obtain ⟨l, hl, hall⟩ := ih (fun q hq => h q (by simp [hq]))
      refine ⟨Ty.userTemplate p.1 c :: l, ?_, ?_⟩
      · rw [List.mapM_cons, hc, hl]; rfl
      · intro t ht
        rcases List.mem_cons.mp ht with h1 | h1
        · rw [h1]; rfl
        · exact hall t h1

/-- C9: catalog construction succeeds when the template store root and
its Global subdirectory are missing; each missing directory contributes
zero entries, and the resulting catalog has no Vendor Template entry at
all (provided the declared user template files are readable, whose
failure the source treats as fatal independently of the store). -/
theorem C9_missing_dirs_ok (ud : UserDataM)
    (h : ∀ p ∈ ud.templates, ∃ c, p.2 = Except.ok c) :
    read_templates_from_dir none none = Except.ok [] ∧
    read_templates_from_dir none (some (str "Global")) = Except.ok [] ∧
    ∃ d, IgnoreData_new none none ud = Except.ok d ∧
      d.countP (fun t => tyRank t = 0) = 0 := by
  refine ⟨rfl, rfl, ?_⟩
  obtain ⟨l, hl, hall⟩ := mapM_user_templates ud.templates h
  refine ⟨List.insertionSort tyLe
    (([] : List Ty) ++ [] ++ ud.aliases.map (fun p => Ty.alias p.1 p.2) ++ l), ?_, ?_⟩
  · simp only [IgnoreData_new, read_templates_from_dir, hl]
    rfl
  · rw [(List.perm_insertionSort tyLe _).countP_eq]
    simp only [List.nil_append, List.countP_append]
    have h1 : (ud.aliases.map (fun p => Ty.alias p.1 p.2)).countP
        (fun t => tyRank t = 0) = 0 := by
      rw [List.countP_eq_zero]
      intro t ht
      obtain ⟨p, _, hp⟩ := List.mem_map.mp ht
      simp [← hp, tyRank]
    have h2 : l.countP (fun t => tyRank t = 0) = 0 := by
      rw [List.countP_eq_zero]
      intro t ht
      have := hall t ht
      simp [this]
    omega

/-- C9 witness: one alias and one readable user template, with both
store directories missing. -/
theorem C9_missing_dirs_ok_witness :
    read_templates_from_dir none none = Except.ok [] ∧
    read_templates_from_dir none (some (str "Global")) = Except.ok [] ∧
    ∃ d, IgnoreData_new none none
        ⟨[(str "web", [str "node"])], [(str "mine", Except.ok (str "target/"))]⟩
        = Except.ok d ∧
      d.countP (fun t => tyRank t = 0) = 0 :=
  C9_missing_dirs_ok ⟨[(str "web", [str "node"])], [(str "mine", Except.ok (str "target/"))]⟩
    (by intro p hp; simp at hp; exact ⟨str "target/", by simp [hp]⟩)

/-! ### Fetch and merge (src/ignore.rs, fetch_and_append_github_templates)

The routine is embedded as a pure state transformer.  The target file is
Option Str (none when .gitignore does not exist), fetch outcomes are
supplied per requested name as Option Str (some body on HTTP success,
none on transport error or non-success status), and the run returns the
final file, the stdout lines, the appended-line count and the two report
lists.  File IO errors, the only fatal outcomes of the source function,
are outside the model. -/

/-- Model of Rust char::is_whitespace on the ASCII range. -/
def isWs (c : Char) : Bool :=
  c = ' ' || c = '\t' || c = '\n' || c = '\x0b' || c = '\x0c' || c = '\r'

/-- Model of Rust str::trim_end: drop trailing whitespace. -/
def trimEnd (l : Str) : Str := (l.reverse.dropWhile isWs).reverse

/-- Strip one leading carriage return from a reversed line accumulator
(the trailing \r of the original line before an \n, as str::lines does). -/
def stripCRrev : Str → Str
  | [] => []
  | a :: t => if a = '\r' then t else a :: t

/-- Worker for splitLines: acc holds the current line reversed. -/
def splitLinesAux (acc : Str) : Str → List Str
  | [] => if acc.isEmpty then [] else [acc.reverse]
  | c :: rest =>
      if c = '\n' then (stripCRrev acc).reverse :: splitLinesAux [] rest
      else splitLinesAux (c :: acc) rest

/-- Model of Rust str::lines: split at \n, dropping a \r immediately
before each \n; a final segment without a line ending is kept when
non-empty. -/
def splitLines (s : Str) : List Str := splitLinesAux [] s

/-- Lines joined with a trailing newline each, as the sequence of
writeln calls produces. -/
def joinNL (lines : List Str) : Str := lines.flatMap (fun l => l ++ ['\n'])

/-- Model of Rust str::ends_with for the newline character. -/
def endsWithNL (s : Str) : Bool := s.getLast? == some '\n'

/-- Loop state of fetch_and_append_github_templates: the existing-lines
set (modelled as a list queried by membership), the collected session
lines in order, the overall new-line count, and the two report lists. -/
structure SessionSt where
  existing : List Str
  session : List Str
  count : Nat
  succeeded : List Str
  failed : List Str
deriving Repr

/-- Per-line step of the template body loop (src/ignore.rs lines
303-333): trim the end, skip blank lines, skip lines already present,
otherwise collect the line and mark it existing. -/
def processLine (st : SessionSt) (lineRaw : Str) : SessionSt :=
  let line := trimEnd lineRaw
  if line.isEmpty then st
  else if line ∈ st.existing then st
  else { st with existing := line :: st.existing,
                 session := st.session ++ [line],
                 count := st.count + 1 }

/-- Body loop over the lines of one fetched template. -/
def processBody (st : SessionSt) : List Str → SessionSt
  | [] => st
  | l :: rest => processBody (processLine st l) rest

/-- Per-name step (src/ignore.rs lines 261-385): a failed fetch is
recorded and processing continues; a successful fetch is recorded and
its body lines are folded into the session. -/
def processSpec (st : SessionSt) (sp : Str × Option Str) : SessionSt :=
  match sp.2 with
  | none => { st with failed := st.failed ++ [sp.1] }
  | some body =>
      processBody { st with succeeded := st.succeeded ++ [sp.1] } (splitLines body)

/-- Name loop of fetch_and_append_github_templates. -/
def processSpecs (st : SessionSt) : List (Str × Option Str) → SessionSt
  | [] => st
  | sp :: rest => processSpecs (processSpec st sp) rest

/-- Result of one fetch_and_append_github_templates run. -/
structure RunResult where
  file : Option Str
  stdout : List Str
  appendedCount : Nat
  succeeded : List Str
  failed : List Str
deriving Repr

/-- Embedding of fetch_and_append_github_templates from src/ignore.rs.
With the write flag the file is created when absent, its trimmed lines
seed the existing set, and a non-empty session is appended after
ensuring a trailing newline; without the write flag the file is left
alone and the session goes to stdout. -/
def fetch_and_append_github_templates (write_to_file_flag : Bool)
    (file0 : Option Str) (template_specs : List (Str × Option Str)) : RunResult :=
  if template_specs.isEmpty then ⟨file0, [], 0, [], []⟩
  else
    let file1 := if write_to_file_flag then some (file0.getD []) else file0
    let existing0 :=
      if write_to_file_flag then (splitLines (file1.getD [])).map trimEnd else []
    let st := processSpecs ⟨existing0, [], 0, [], []⟩ template_specs
    if write_to_file_flag then
      if st.session.isEmpty then ⟨file1, [], st.count, st.succeeded, st.failed⟩
      else
        let c := file1.getD []
        let c2 := if !c.isEmpty && !endsWithNL c then c ++ ['\n'] else c
        ⟨some (c2 ++ joinNL st.session), [], st.count, st.succeeded, st.failed⟩
    else ⟨file0, st.session, st.count, st.succeeded, st.failed⟩

/-- Candidate lines of a run: the trimmed, non-blank lines of every
successfully fetched body, in processing order. -/
def candidateLines (specs : List (Str × Option Str)) : List Str :=
  specs.flatMap (fun sp =>
    match sp.2 with
    | none => []
    | some body => ((splitLines body).map trimEnd).filter (fun l => !l.isEmpty))

/-! ### Line utility lemmas -/

/-- Dropping a prefix by a predicate is idempotent. -/
theorem dropWhile_self (p : Char → Bool) (x : Str) :
    (x.dropWhile p).dropWhile p = x.dropWhile p := by
  induction x with
  | nil => rfl
  | cons c t ih =>
      by_cases h : p c
      · simp [List.dropWhile_cons, h, ih]
      · simp [List.dropWhile_cons, h]

/-- Trimming trailing whitespace is idempotent. -/
theorem trimEnd_idem (l : Str) : trimEnd (trimEnd l) = trimEnd l := by
  unfold trimEnd
  rw [List.reverse_reverse, dropWhile_self]

/-- Characters of a trimmed line come from the original line. -/
theorem mem_of_mem_trimEnd {c : Char} {l : Str} (h : c ∈ trimEnd l) : c ∈ l := by
  unfold trimEnd at h
  rw [List.mem_reverse] at h
  exact List.mem_reverse.mp ((List.dropWhile_sublist (p := isWs)).mem h)

/-- Removing one trailing whitespace character does not change the
trimmed form. -/
theorem trimEnd_append_ws {c : Char} (hc : isWs c = true) (x : Str) :
    trimEnd (x ++ [c]) = trimEnd x := by
  unfold trimEnd
  rw [List.reverse_append]
  simp [List.dropWhile_cons, hc]

/-- A non-empty line fixed by trimEnd does not end in whitespace. -/
theorem trimEnd_last_not_ws {l : Str} {c : Char}
    (hfix : trimEnd l = l) (hlast : l.getLast? = some c) : isWs c = false := by
  have hrev : l.reverse.head? = some c := by rw [List.head?_reverse]; exact hlast
  obtain ⟨rest, hr⟩ : ∃ rest, l.reverse = c :: rest := by
    cases hl : l.reverse with
    | nil => rw [hl] at hrev; cases hrev
    | cons a t => rw [hl] at hrev; exact ⟨t, by cases hrev; rfl⟩
  have hdw : l.reverse.dropWhile isWs = l.reverse := by
    have h2 := congrArg List.reverse hfix
    unfold trimEnd at h2
    rwa [List.reverse_reverse] at h2
  by_contra hws
  have hws' : isWs c = true := by revert hws; cases isWs c <;> simp
  rw [hr, List.dropWhile_cons, if_pos hws'] at hdw
  have hlen := congrArg List.length hdw
  have hle : (rest.dropWhile isWs).length ≤ rest.length :=
    (List.dropWhile_sublist isWs).length_le
  simp only [List.length_cons] at hlen
  omega

/-- Lines produced by splitLinesAux contain no newline when the
accumulator contains none. -/
theorem splitLinesAux_no_nl (s : Str) :
    ∀ (acc l : Str), '\n' ∉ acc → l ∈ splitLinesAux acc s → '\n' ∉ l := by
  induction s with
  | nil =>
      intro acc l hacc hl
      unfold splitLinesAux at hl
      by_cases h : acc.isEmpty
      · rw [if_pos h] at hl; cases hl
      · rw [if_neg h] at hl
        have h2 := List.mem_singleton.mp hl
        subst h2
        simpa [List.mem_reverse] using hacc
  | cons c rest ih =>
      intro acc l hacc hl
      unfold splitLinesAux at hl
      by_cases hc : c = '\n'
      · rw [if_pos hc] at hl
        rcases List.mem_cons.mp hl with h1 | h1
        · subst h1
          rw [List.mem_reverse]
          intro hmem
          apply hacc
          cases acc with
          | nil => simpa [stripCRrev] using hmem
          | cons a t =>
              by_cases ha : a = '\r'
              · simp only [stripCRrev, if_pos ha] at hmem
                exact List.mem_cons_of_mem a hmem
              · simpa [stripCRrev, ha] using hmem
        · exact ih [] l (by simp) h1
      · rw [if_neg hc] at hl
        refine ih (c :: acc) l ?_ hl
        intro hmem
        rcases List.mem_cons.mp hmem with h1 | h1
        · exact hc h1.symm
        · exact hacc h1

/-- Lines of a split text contain no newline. -/
theorem splitLines_no_nl {s l : Str} (h : l ∈ splitLines s) : '\n' ∉ l :=
  splitLinesAux_no_nl s [] l (by simp) h

/-- Consuming a newline-free prefix only augments the accumulator. -/
theorem splitLinesAux_append_no_nl (l : Str) (hl : '\n' ∉ l) (acc s : Str) :
    splitLinesAux acc (l ++ s) = splitLinesAux (l.reverse ++ acc) s := by
  induction l generalizing acc with
  | nil => simp
  | cons c t ih =>
      have hc : ¬ c = '\n' := by
        intro e
        exact hl (by simp [e])
      rw [List.cons_append]
      show (if c = '\n' then _ else splitLinesAux (c :: acc) (t ++ s)) = _
      rw [if_neg hc, ih (fun hm => hl (List.mem_cons_of_mem c hm)) (c :: acc)]
      simp [List.append_assoc]

/-- One newline-free line not ending in a carriage return, followed by a
newline, is split off verbatim. -/
theorem splitLinesAux_line (l : Str) (hnl : '\n' ∉ l)
    (hcr : l.getLast? ≠ some '\r') (s : Str) :
    splitLinesAux [] (l ++ '\n' :: s) = l :: splitLinesAux [] s := by
  rw [splitLinesAux_append_no_nl l hnl [] ('\n' :: s), List.append_nil]
  show (if ('\n' : Char) = '\n' then
    (stripCRrev l.reverse).reverse :: splitLinesAux [] s else _) = _
  rw [if_pos rfl]
  congr 1
  cases hrev : l.reverse with
  | nil =>
      have hl0 : l = [] := by simpa using congrArg List.reverse hrev
      subst hl0
      rfl
  | cons a t =>
      have ha : a ≠ '\r' := by
        intro e
        apply hcr
        rw [← List.head?_reverse, hrev, e]
        rfl
      have h1 : stripCRrev (a :: t) = a :: t := by simp [stripCRrev, ha]
      rw [h1, ← hrev, List.reverse_reverse]

/-- Splitting the writeln-joined session recovers the session lines
(each free of newlines and not ending in a carriage return). -/
theorem splitLines_joinNL (t : List Str)
    (h : ∀ l ∈ t, '\n' ∉ l ∧ l.getLast? ≠ some '\r') :
    splitLines (joinNL t) = t := by
  induction t with
  | nil => rfl
  | cons l rest ih =>
      have hl := h l (by simp)
      have hjoin : joinNL (l :: rest) = l ++ '\n' :: joinNL rest := by
        simp [joinNL, List.flatMap_cons]
      unfold splitLines
      rw [hjoin, splitLinesAux_line l hl.1 hl.2]
      exact congrArg (l :: ·) (ih (fun x hx => h x (by simp [hx])))

/-- Split distributes over append when the left part ends in a newline. -/
theorem splitLinesAux_append_endsNL (a : Str) (ha : endsWithNL a = true) :
    ∀ (acc b : Str),
      splitLinesAux acc (a ++ b) = splitLinesAux acc a ++ splitLinesAux [] b := by
  induction a with
  | nil => simp [endsWithNL] at ha
  | cons c t ih =>
      intro acc b
      cases t with
      | nil =>
          have hc : c = '\n' := by simpa [endsWithNL] using ha
          subst hc
          show (stripCRrev acc).reverse :: splitLinesAux [] b =
            ((stripCRrev acc).reverse :: splitLinesAux [] []) ++ splitLinesAux [] b
          simp [splitLinesAux]
      | cons d u =>
          have ht : endsWithNL (d :: u) = true := by
            simpa [endsWithNL, List.getLast?_cons_cons] using ha
          have hstep : ∀ (y : Str) (z : Str), splitLinesAux y (c :: z) =
              if c = '\n' then (stripCRrev y).reverse :: splitLinesAux [] z
              else splitLinesAux (c :: y) z := fun y z => rfl
          by_cases hc : c = '\n'
          · rw [show (c :: (d :: u)) ++ b = c :: ((d :: u) ++ b) from rfl,
              hstep acc ((d :: u) ++ b), hstep acc (d :: u), if_pos hc, if_pos hc,
              ih ht [] b]
            simp
          · rw [show (c :: (d :: u)) ++ b = c :: ((d :: u) ++ b) from rfl,
              hstep acc ((d :: u) ++ b), hstep acc (d :: u), if_neg hc, if_neg hc]
            exact ih ht (c :: acc) b

/-- Appending a final newline to a text that does not already end in one
leaves the trimmed line list unchanged. -/
theorem splitLinesAux_final_newline (s : Str) :
    ∀ acc, endsWithNL s = false → (s = [] → acc ≠ []) →
      (splitLinesAux acc (s ++ ['\n'])).map trimEnd =
        (splitLinesAux acc s).map trimEnd := by
  induction s with
  | nil =>
      intro acc _ hacc
      have hacc' := hacc rfl
      cases acc with
      | nil => exact absurd rfl hacc'
      | cons a t =>
          show [trimEnd (stripCRrev (a :: t)).reverse] ++
              (splitLinesAux [] []).map trimEnd = [trimEnd (a :: t).reverse]
          by_cases har : a = '\r'
          · subst har
            have h1 : stripCRrev ('\r' :: t) = t := by simp [stripCRrev]
            have h2 : splitLinesAux [] ([] : Str) = [] := rfl
            rw [h1, h2, List.reverse_cons, trimEnd_append_ws (by decide) t.reverse]
            simp
          · simp [splitLinesAux, stripCRrev, har]
  | cons c s' ih =>
      intro acc hend hne
      have hstep : ∀ (y z : Str), splitLinesAux y (c :: z) =
          if c = '\n' then (stripCRrev y).reverse :: splitLinesAux [] z
          else splitLinesAux (c :: y) z := fun y z => rfl
      rw [show (c :: s') ++ ['\n'] = c :: (s' ++ ['\n']) from rfl,
        hstep acc (s' ++ ['\n']), hstep acc s']
      by_cases hc : c = '\n'
      · rw [if_pos hc, if_pos hc]
        cases s' with
        | nil =>
            subst hc
            simp [endsWithNL] at hend
        | cons d u =>
            have hend' : endsWithNL (d :: u) = false := by
              subst hc
              simpa [endsWithNL, List.getLast?_cons_cons] using hend
            simp only [List.map_cons]
            rw [ih [] hend' (by intro h; cases h)]
      · rw [if_neg hc, if_neg hc]
        refine ih (c :: acc) ?_ (by intro _; simp)
        cases s' with
        | nil => simp [endsWithNL]
        | cons d u => simpa [endsWithNL, List.getLast?_cons_cons] using hend

/-! ### State lemmas for the merge loop -/

/-- Complete account of one template body pass: the collected lines t
extend the session in order, bump the count by their number, leave the
reports alone, and are exactly the new members of the existing set; each
collected line is trimmed, non-blank, new relative to the start state,
and stems from a body line; the collected lines are distinct; and every
non-blank trimmed body line ends up in the existing set. -/
theorem processBody_spec (lines : List Str) (st : SessionSt) :
    ∃ t,
      (processBody st lines).session = st.session ++ t ∧
      (processBody st lines).count = st.count + t.length ∧
      (processBody st lines).succeeded = st.succeeded ∧
      (processBody st lines).failed = st.failed ∧
      (∀ l, l ∈ (processBody st lines).existing ↔ l ∈ st.existing ∨ l ∈ t) ∧
      (∀ l ∈ t, trimEnd l = l ∧ l.isEmpty = false ∧ l ∉ st.existing ∧
        l ∈ (processBody st lines).existing ∧ ∃ lr ∈ lines, l = trimEnd lr) ∧
      t.Nodup ∧
      (∀ lr ∈ lines, (trimEnd lr).isEmpty = false →
        trimEnd lr ∈ (processBody st lines).existing) := by
  induction lines generalizing st with
  | nil =>
      refine ⟨[], by simp [processBody], by simp [processBody], rfl, rfl, ?_, by simp, by simp, by simp⟩
      intro l
      simp [processBody]
  | cons lr rest ih =>
      rw [show processBody st (lr :: rest) = processBody (processLine st lr) rest from rfl]
      by_cases he : (trimEnd lr).isEmpty
      · have hstep : processLine st lr = st := by
          simp only [processLine]
          rw [if_pos he]
        rw [hstep]
        obtain ⟨t, h1, h2, h3, h4, h5, h6, h7, h8⟩ := ih st
        refine ⟨t, h1, h2, h3, h4, h5, ?_, h7, ?_⟩
        · intro l hl
          obtain ⟨p1, p2, p3, p4, lr', hlr', p5⟩ := h6 l hl
          exact ⟨p1, p2, p3, p4, lr', List.mem_cons_of_mem lr hlr', p5⟩
        · intro lr' hlr' hne
          rcases List.mem_cons.mp hlr' with h9 | h9
          · subst h9; rw [hne] at he; cases he
          · exact h8 lr' h9 hne
      · by_cases hm : trimEnd lr ∈ st.existing
        · have hstep : processLine st lr = st := by
            simp only [processLine]
            rw [if_neg he, if_pos hm]
          rw [hstep]
          obtain ⟨t, h1, h2, h3, h4, h5, h6, h7, h8⟩ := ih st
          refine ⟨t, h1, h2, h3, h4, h5, ?_, h7, ?_⟩
          · intro l hl
            obtain ⟨p1, p2, p3, p4, lr', hlr', p5⟩ := h6 l hl
            exact ⟨p1, p2, p3, p4, lr', List.mem_cons_of_mem lr hlr', p5⟩
          · intro lr' hlr' hne
            rcases List.mem_cons.mp hlr' with h9 | h9
            · subst h9; exact (h5 (trimEnd lr')).mpr (Or.inl hm)
            · exact h8 lr' h9 hne
        · have hstep : processLine st lr =
              { st with existing := trimEnd lr :: st.existing,
                        session := st.session ++ [trimEnd lr],
                        count := st.count + 1 } := by
            simp only [processLine]
            rw [if_neg he, if_neg hm]
          rw [hstep]
          obtain ⟨t, h1, h2, h3, h4, h5, h6, h7, h8⟩ :=
            ih { st with existing := trimEnd lr :: st.existing,
                         session := st.session ++ [trimEnd lr],
                         count := st.count + 1 }
          refine ⟨trimEnd lr :: t, ?_, ?_, h3, h4, ?_, ?_, ?_, ?_⟩
          · rw [h1]; simp
          · rw [h2]; simp only [List.length_cons]; omega
          · intro l
            rw [h5 l]
            simp only [List.mem_cons]
            tauto
          · intro l hl
            rcases List.mem_cons.mp hl with h9 | h9
            · subst h9
              refine ⟨trimEnd_idem lr, by simpa using he, hm, ?_, lr, by simp, rfl⟩
              exact (h5 (trimEnd lr)).mpr (Or.inl (by simp))
            · obtain ⟨p1, p2, p3, p4, lr', hlr', p5⟩ := h6 l h9
              refine ⟨p1, p2, fun hmem => p3 (List.mem_cons_of_mem _ hmem), p4,
                lr', List.mem_cons_of_mem lr hlr', p5⟩
          · refine List.Pairwise.cons ?_ h7
            intro l hl
            obtain ⟨_, _, p3, _, _⟩ := h6 l hl
            intro heq
            exact p3 (heq ▸ List.mem_cons_self _ _)
          · intro lr' hlr' hne
            rcases List.mem_cons.mp hlr' with h9 | h9
            · subst h9
              exact (h5 (trimEnd lr')).mpr (Or.inl (by simp))
            · exact h8 lr' h9 hne

/-- Complete account of the name loop: the collected session lines t,
the success and failure reports in processing order, the growth of the
existing set, per-line provenance, distinctness, and coverage of every
candidate line. -/
theorem processSpecs_spec (specs : List (Str × Option Str)) (st : SessionSt) :
    ∃ t,
      (processSpecs st specs).session = st.session ++ t ∧
      (processSpecs st specs).count = st.count + t.length ∧
      (processSpecs st specs).succeeded =
        st.succeeded ++ (specs.filter (fun sp => sp.2.isSome)).map (fun sp => sp.1) ∧
      (processSpecs st specs).failed =
        st.failed ++ (specs.filter (fun sp => sp.2.isNone)).map (fun sp => sp.1) ∧
      (∀ l, l ∈ (processSpecs st specs).existing ↔ l ∈ st.existing ∨ l ∈ t) ∧
      (∀ l ∈ t, trimEnd l = l ∧ l.isEmpty = false ∧ l ∉ st.existing ∧
        l ∈ (processSpecs st specs).existing ∧
        ∃ name body, (name, some body) ∈ specs ∧ ∃ lr ∈ splitLines body, l = trimEnd lr) ∧
      t.Nodup ∧
      (∀ l ∈ candidateLines specs, l ∈ (processSpecs st specs).existing) := by
  induction specs generalizing st with
  | nil =>
      refine ⟨[], by simp [processSpecs], by simp [processSpecs], by simp [processSpecs],
        by simp [processSpecs], ?_, by simp, by simp, by simp [candidateLines]⟩
      intro l
      simp [processSpecs]
  | cons sp rest ih =>
      rcases sp with ⟨name, ob⟩
      cases ob with
      | none =>
          rw [show processSpecs st ((name, none) :: rest) =
            processSpecs { st with failed := st.failed ++ [name] } rest from rfl]
          obtain ⟨t, h1, h2, h3, h4, h5, h6, h7, h8⟩ :=
            ih { st with failed := st.failed ++ [name] }
          refine ⟨t, h1, h2, ?_, ?_, h5, ?_, h7, ?_⟩
          · rw [h3]
            simp
          · rw [h4]
            simp [List.filter_cons]
          · intro l hl
            obtain ⟨p1, p2, p3, p4, nm, bd, hmem, p5⟩ := h6 l hl
            exact ⟨p1, p2, p3, p4, nm, bd, List.mem_cons_of_mem _ hmem, p5⟩
          · intro l hl
            refine h8 l ?_
            simpa [candidateLines] using hl
      | some body =>
          rw [show processSpecs st ((name, some body) :: rest) =
            processSpecs (processBody { st with succeeded := st.succeeded ++ [name] }
              (splitLines body)) rest from rfl]
          obtain ⟨tb, b1, b2, b3, b4, b5, b6, b7, b8⟩ :=
            processBody_spec (splitLines body)
              { st with succeeded := st.succeeded ++ [name] }
          obtain ⟨tr, r1, r2, r3, r4, r5, r6, r7, r8⟩ :=
            ih (processBody { st with succeeded := st.succeeded ++ [name] }
              (splitLines body))
          refine ⟨tb ++ tr, ?_, ?_, ?_, ?_, ?_, ?_, ?_, ?_⟩
          · rw [r1, b1]
            simp
          · have hc : ({ st with succeeded := st.succeeded ++ [name] } : SessionSt).count
                = st.count := rfl
            rw [r2, b2, hc, List.length_append]
            omega
          · rw [r3, b3]
            simp [List.filter_cons]
          · rw [r4, b4]
            simp [List.filter_cons]
          · intro l
            rw [r5 l, b5 l]
            simp only [List.mem_append]
            tauto
          · intro l hl
            rcases List.mem_append.mp hl with h9 | h9
            · obtain ⟨p1, p2, p3, p4, lr, hlr, p5⟩ := b6 l h9
              refine ⟨p1, p2, p3, (r5 l).mpr (Or.inl p4),
                name, body, List.mem_cons_self _ _, lr, hlr, p5⟩
            · obtain ⟨p1, p2, p3, p4, nm, bd, hmem, p5⟩ := r6 l h9
              refine ⟨p1, p2, fun hmem2 => p3 ((b5 l).mpr (Or.inl hmem2)), p4,
                nm, bd, List.mem_cons_of_mem _ hmem, p5⟩
          · refine List.Nodup.append b7 r7 ?_
            intro l hltb hltr
            obtain ⟨_, _, _, p4, _⟩ := b6 l hltb
            obtain ⟨_, _, p3', _⟩ := r6 l hltr
            exact p3' p4
          · intro l hl
            rw [show candidateLines ((name, some body) :: rest) =
              ((splitLines body).map trimEnd).filter (fun x => !x.isEmpty)
                ++ candidateLines rest from by simp [candidateLines]] at hl
            rcases List.mem_append.mp hl with h9 | h9
            · obtain ⟨hmf, hne⟩ := List.mem_filter.mp h9
              obtain ⟨lr, hlr, hl2⟩ := List.mem_map.mp hmf
              subst hl2
              refine (r5 (trimEnd lr)).mpr (Or.inl ?_)
              exact b8 lr hlr (by simpa using hne)
            · exact r8 l h9

/-- A body pass collects nothing when every non-blank trimmed body line
is already in the existing set. -/
theorem processBody_noop (lines : List Str) (st : SessionSt)
    (h : ∀ lr ∈ lines, (trimEnd lr).isEmpty = false → trimEnd lr ∈ st.existing) :
    processBody st lines = st := by
  induction lines generalizing st with
  | nil => rfl
  | cons lr rest ih =>
      have hstep : processLine st lr = st := by
        simp only [processLine]
        by_cases he : (trimEnd lr).isEmpty = true
        · rw [if_pos he]
        · rw [if_neg he, if_pos (h lr (by simp) (by simpa using he))]
      rw [show processBody st (lr :: rest) = processBody (processLine st lr) rest from rfl,
        hstep]
      exact ih st (fun lr' hm hne => h lr' (List.mem_cons_of_mem _ hm) hne)

/-- A full run collects nothing, and leaves the existing set alone, when
every candidate line is already in the existing set; only the reports
accumulate. -/
theorem processSpecs_noop (specs : List (Str × Option Str)) (st : SessionSt)
    (h : ∀ l ∈ candidateLines specs, l ∈ st.existing) :
    (processSpecs st specs).session = st.session ∧
    (processSpecs st specs).count = st.count ∧
    (processSpecs st specs).existing = st.existing := by
  induction specs generalizing st with
  | nil => exact ⟨rfl, rfl, rfl⟩
  | cons sp rest ih =>
      rcases sp with ⟨name, ob⟩
      cases ob with
      | none =>
          rw [show processSpecs st ((name, none) :: rest) =
            processSpecs { st with failed := st.failed ++ [name] } rest from rfl]
          exact ih { st with failed := st.failed ++ [name] }
            (fun l hl => h l (by simpa [candidateLines] using hl))
      | some body =>
          have hb : processBody { st with succeeded := st.succeeded ++ [name] }
              (splitLines body) = { st with succeeded := st.succeeded ++ [name] } := by
            refine processBody_noop (splitLines body) _ ?_
            intro lr hm hne
            refine h (trimEnd lr) ?_
            rw [show candidateLines ((name, some body) :: rest) =
              ((splitLines body).map trimEnd).filter (fun x => !x.isEmpty)
                ++ candidateLines rest from by simp [candidateLines]]
            refine List.mem_append.mpr (Or.inl ?_)
            exact List.mem_filter.mpr ⟨List.mem_map_of_mem trimEnd hm, by simpa using hne⟩
          rw [show processSpecs st ((name, some body) :: rest) =
            processSpecs (processBody { st with succeeded := st.succeeded ++ [name] }
              (splitLines body)) rest from rfl, hb]
          exact ih { st with succeeded := st.succeeded ++ [name] }
            (fun l hl => h l (by
              rw [show candidateLines ((name, some body) :: rest) =
                ((splitLines body).map trimEnd).filter (fun x => !x.isEmpty)
                  ++ candidateLines rest from by simp [candidateLines]]
              exact List.mem_append.mpr (Or.inr hl)))

/-- Core projection of the loop state: everything except the failure
report. -/
def coreOf (st : SessionSt) : List Str × List Str × Nat × List Str :=
  (st.existing, st.session, st.count, st.succeeded)

/-- The failure report is write-only in the per-line step. -/
theorem processLine_failed_comm (st : SessionSt) (x : List Str) (l : Str) :
    processLine { st with failed := x } l = { processLine st l with failed := x } := by
  simp only [processLine]
  by_cases he : (trimEnd l).isEmpty = true
  · rw [if_pos he, if_pos he]
  · by_cases hm : trimEnd l ∈ st.existing
    · rw [if_neg he, if_neg he, if_pos hm, if_pos hm]
    · rw [if_neg he, if_neg he, if_neg hm, if_neg hm]

/-- The failure report is write-only in a body pass. -/
theorem processBody_failed_comm (lines : List Str) (st : SessionSt) (x : List Str) :
    processBody { st with failed := x } lines = { processBody st lines with failed := x } := by
  induction lines generalizing st with
  | nil => rfl
  | cons lr rest ih =>
      rw [show processBody { st with failed := x } (lr :: rest) =
        processBody (processLine { st with failed := x } lr) rest from rfl,
        processLine_failed_comm, ih]
      rfl

/-- The core of a run does not depend on the initial failure report. -/
theorem processSpecs_failed_irrel (specs : List (Str × Option Str)) :
    ∀ (st : SessionSt) (x : List Str),
      coreOf (processSpecs { st with failed := x } specs) =
        coreOf (processSpecs st specs) := by
  induction specs with
  | nil => intro st x; rfl
  | cons sp rest ih =>
      intro st x
      rcases sp with ⟨name, ob⟩
      cases ob with
      | none =>
          calc coreOf (processSpecs { st with failed := x ++ [name] } rest)
              = coreOf (processSpecs st rest) := ih st (x ++ [name])
            _ = coreOf (processSpecs { st with failed := st.failed ++ [name] } rest) :=
              (ih st (st.failed ++ [name])).symm
      | some body =>
          show coreOf (processSpecs (processBody
              { st with succeeded := st.succeeded ++ [name], failed := x }
              (splitLines body)) rest) = _
          rw [show ({ st with succeeded := st.succeeded ++ [name], failed := x } : SessionSt)
            = { { st with succeeded := st.succeeded ++ [name] } with failed := x } from rfl,
            processBody_failed_comm]
          exact ih (processBody { st with succeeded := st.succeeded ++ [name] }
            (splitLines body)) x

/-- Failed fetches leave the core of the run unchanged: the same run
over only the successful names gives the same existing set, session,
count and success report. -/
theorem processSpecs_core_filter (specs : List (Str × Option Str)) :
    ∀ st : SessionSt,
      coreOf (processSpecs st specs) =
        coreOf (processSpecs st (specs.filter (fun sp => sp.2.isSome))) := by
  induction specs with
  | nil => intro st; rfl
  | cons sp rest ih =>
      intro st
      rcases sp with ⟨name, ob⟩
      cases ob with
      | none =>
          rw [show ((name, none) :: rest).filter (fun sp => sp.2.isSome)
            = rest.filter (fun sp => sp.2.isSome) from by simp [List.filter_cons]]
          calc coreOf (processSpecs st ((name, none) :: rest))
              = coreOf (processSpecs { st with failed := st.failed ++ [name] } rest) := rfl
            _ = coreOf (processSpecs st rest) := processSpecs_failed_irrel rest st _
            _ = coreOf (processSpecs st (rest.filter (fun sp => sp.2.isSome))) := ih st
      | some body =>
          rw [show ((name, some body) :: rest).filter (fun sp => sp.2.isSome)
            = (name, some body) :: rest.filter (fun sp => sp.2.isSome) from by
              simp [List.filter_cons]]
          exact ih (processSpec st (name, some body))

/-- Appended-count of a write-mode run, in terms of the name loop. -/
theorem fetch_write_count_eq (f : Option Str) (specs : List (Str × Option Str))
    (h : specs.isEmpty = false) :
    (fetch_and_append_github_templates true f specs).appendedCount
      = (processSpecs ⟨(splitLines (f.getD [])).map trimEnd, [], 0, [], []⟩ specs).count := by
  simp only [fetch_and_append_github_templates, h, Bool.false_eq_true, if_false, if_true,
    Option.getD_some]
  by_cases hs : (processSpecs ⟨(splitLines (f.getD [])).map trimEnd, [], 0, [], []⟩
      specs).session.isEmpty = true
  · rw [if_pos hs]
  · rw [if_neg hs]

/-- Final file of a write-mode run, in terms of the name loop. -/
theorem fetch_write_file_eq (f : Option Str) (specs : List (Str × Option Str))
    (h : specs.isEmpty = false) :
    (fetch_and_append_github_templates true f specs).file
      = (if (processSpecs ⟨(splitLines (f.getD [])).map trimEnd, [], 0, [], []⟩
            specs).session.isEmpty then some (f.getD [])
         else some ((if !(f.getD []).isEmpty && !endsWithNL (f.getD [])
                     then f.getD [] ++ ['\n'] else f.getD [])
            ++ joinNL (processSpecs ⟨(splitLines (f.getD [])).map trimEnd, [], 0, [], []⟩
                  specs).session)) := by
  simp only [fetch_and_append_github_templates, h, Bool.false_eq_true, if_false, if_true,
    Option.getD_some]
  by_cases hs : (processSpecs ⟨(splitLines (f.getD [])).map trimEnd, [], 0, [], []⟩
      specs).session.isEmpty = true
  · rw [if_pos hs, if_pos hs]
  · rw [if_neg hs, if_neg hs]

/-- Count equals the number of collected session lines. -/
theorem processSpecs_count_length (E : List Str) (specs : List (Str × Option Str)) :
    (processSpecs ⟨E, [], 0, [], []⟩ specs).count
      = (processSpecs ⟨E, [], 0, [], []⟩ specs).session.length := by
  obtain ⟨t, h1, h2, _, _, _, _, _, _⟩ := processSpecs_spec specs ⟨E, [], 0, [], []⟩
  rw [h1, h2]
  simp

/-! ### Claim C7: per-invocation batch deduplication -/

/-- C7: in one invocation the collected batch holds each line at most
once; every batch line is trimmed, non-blank and absent from the
pre-existing lines E; every trimmed non-blank line of a successful body
that is not in E makes it into the batch; the reported count equals the
batch size; and the write-mode run reports exactly that count for the
pre-existing target file content. -/
theorem C7_batch_unique_lines (E : List Str) (specs : List (Str × Option Str))
    (st : SessionSt) (hst : st = processSpecs ⟨E, [], 0, [], []⟩ specs) :
    st.session.Nodup ∧
    (∀ l ∈ st.session, trimEnd l = l ∧ l.isEmpty = false ∧ l ∉ E) ∧
    (∀ l ∈ candidateLines specs, l ∉ E → l ∈ st.session) ∧
    st.count = st.session.length ∧
    (∀ c : Str, (fetch_and_append_github_templates true (some c) specs).appendedCount
      = (processSpecs ⟨(splitLines c).map trimEnd, [], 0, [], []⟩ specs).session.length) := by
  subst hst
  obtain ⟨t, h1, h2, _, _, h5, h6, h7, h8⟩ := processSpecs_spec specs ⟨E, [], 0, [], []⟩
  simp only [List.nil_append] at h1
  refine ⟨h1 ▸ h7, ?_, ?_, processSpecs_count_length E specs, ?_⟩
  · intro l hl
    rw [h1] at hl
    obtain ⟨p1, p2, p3, _⟩ := h6 l hl
    exact ⟨p1, p2, p3⟩
  · intro l hl hne
    rcases (h5 l).mp (h8 l hl) with h9 | h9
    · exact absurd h9 hne
    · rw [h1]; exact h9
  · intro c
    by_cases hspec : specs.isEmpty = true
    · have h0 : specs = [] := List.isEmpty_iff.mp hspec
      subst h0
      rfl
    · have hspec' : specs.isEmpty = false := by
        revert hspec; cases specs.isEmpty <;> simp
      rw [fetch_write_count_eq (some c) specs hspec']
      exact processSpecs_count_length _ specs

/-- C7 witness: two successful bodies sharing a line, over an existing
file line. -/
theorem C7_batch_unique_lines_witness :
    ((processSpecs ⟨[str "old"], [], 0, [], []⟩
        [(str "A", some (str "x\nold\n")), (str "B", some (str "x\ny\n"))]).session.Nodup ∧
    (∀ l ∈ (processSpecs ⟨[str "old"], [], 0, [], []⟩
        [(str "A", some (str "x\nold\n")), (str "B", some (str "x\ny\n"))]).session,
      trimEnd l = l ∧ l.isEmpty = false ∧ l ∉ [str "old"]) ∧
    (∀ l ∈ candidateLines [(str "A", some (str "x\nold\n")), (str "B", some (str "x\ny\n"))],
      l ∉ [str "old"] →
      l ∈ (processSpecs ⟨[str "old"], [], 0, [], []⟩
        [(str "A", some (str "x\nold\n")), (str "B", some (str "x\ny\n"))]).session) ∧
    (processSpecs ⟨[str "old"], [], 0, [], []⟩
        [(str "A", some (str "x\nold\n")), (str "B", some (str "x\ny\n"))]).count
      = (processSpecs ⟨[str "old"], [], 0, [], []⟩
        [(str "A", some (str "x\nold\n")), (str "B", some (str "x\ny\n"))]).session.length ∧
    (∀ c : Str, (fetch_and_append_github_templates true (some c)
        [(str "A", some (str "x\nold\n")), (str "B", some (str "x\ny\n"))]).appendedCount
      = (processSpecs ⟨(splitLines c).map trimEnd, [], 0, [], []⟩
        [(str "A", some (str "x\nold\n")), (str "B", some (str "x\ny\n"))]).session.length)) :=
  C7_batch_unique_lines [str "old"]
    [(str "A", some (str "x\nold\n")), (str "B", some (str "x\ny\n"))] _ rfl

/-! ### Claim C6: idempotence of the write-mode merge -/

/-- C6: running the write-mode merge twice with the same fetch outcomes
leaves the file exactly as after the first run, and the second run
appends zero lines. -/
theorem C6_idempotent_merge (f : Option Str) (specs : List (Str × Option Str)) :
    (fetch_and_append_github_templates true
        (fetch_and_append_github_templates true f specs).file specs).file =
      (fetch_and_append_github_templates true f specs).file ∧
    (fetch_and_append_github_templates true
        (fetch_and_append_github_templates true f specs).file specs).appendedCount = 0 := by
  by_cases hspec : specs.isEmpty = true
  · have h0 : specs = [] := List.isEmpty_iff.mp hspec
    subst h0
    exact ⟨rfl, rfl⟩
  have hspec' : specs.isEmpty = false := by
    revert hspec; cases specs.isEmpty <;> simp
  obtain ⟨t, h1, h2, _, _, h5, h6, h7, h8⟩ :=
    processSpecs_spec specs ⟨(splitLines (f.getD [])).map trimEnd, [], 0, [], []⟩
  simp only [List.nil_append] at h1
  have hlineprops : ∀ l ∈ t, '\n' ∉ l ∧ l.getLast? ≠ some '\r' := by
    intro l hl
    obtain ⟨hfix, hne, _, _, _, body, _, lr, hlr, hlr2⟩ := h6 l hl
    constructor
    · intro hmem
      exact splitLines_no_nl hlr (mem_of_mem_trimEnd (hlr2 ▸ hmem))
    · intro hcr
      have := trimEnd_last_not_ws hfix hcr
      simp [isWs] at this
  have hcand : ∀ l ∈ candidateLines specs,
      l ∈ (splitLines (f.getD [])).map trimEnd ∨ l ∈ t := by
    intro l hl
    exact (h5 l).mp (h8 l hl)
  rw [fetch_write_file_eq f specs hspec']
  by_cases hs : (processSpecs ⟨(splitLines (f.getD [])).map trimEnd, [], 0, [], []⟩
      specs).session.isEmpty = true
  · rw [if_pos hs]
    have ht0 : t = [] := by rw [← h1]; exact List.isEmpty_iff.mp hs
    have hcand0 : ∀ l ∈ candidateLines specs,
        l ∈ (splitLines ((some (f.getD [])).getD [])).map trimEnd := by
      intro l hl
      rcases hcand l hl with h9 | h9
      · simpa using h9
      · rw [ht0] at h9; cases h9
    have hnoop := processSpecs_noop specs
      ⟨(splitLines ((some (f.getD [])).getD [])).map trimEnd, [], 0, [], []⟩ hcand0
    constructor
    · rw [fetch_write_file_eq (some (f.getD [])) specs hspec',
        if_pos (by rw [hnoop.1]; rfl)]
      simp
    · rw [fetch_write_count_eq (some (f.getD [])) specs hspec', hnoop.2.1]
  · rw [if_neg hs, h1]
    have htne : ¬ t.isEmpty = true := by rw [← h1]; exact hs
    set c0 : Str := f.getD [] with hc0
    set c2 : Str := if !c0.isEmpty && !endsWithNL c0 then c0 ++ ['\n'] else c0 with hc2
    have hsplit : splitLines (c2 ++ joinNL t) = splitLines c2 ++ t := by
      have hj : splitLines (joinNL t) = t := splitLines_joinNL t hlineprops
      by_cases hcc : (!c0.isEmpty && !endsWithNL c0) = true
      · have hc2e : c2 = c0 ++ ['\n'] := by rw [hc2, if_pos hcc]
        have hends : endsWithNL c2 = true := by
          rw [hc2e, endsWithNL, List.getLast?_concat]
          rfl
        show splitLinesAux [] (c2 ++ joinNL t) = _
        rw [splitLinesAux_append_endsNL c2 hends [] (joinNL t)]
        exact congrArg (splitLinesAux [] c2 ++ ·) hj
      · have hc2e : c2 = c0 := by rw [hc2, if_neg hcc]
        by_cases h00 : c0.isEmpty = true
        · have : c0 = [] := List.isEmpty_iff.mp h00
          rw [hc2e, this]
          simpa using hj
        · have hends : endsWithNL c0 = true := by
            revert hcc h00
            cases c0.isEmpty <;> cases endsWithNL c0 <;> simp
          show splitLinesAux [] (c2 ++ joinNL t) = _
          rw [hc2e, splitLinesAux_append_endsNL c0 hends [] (joinNL t)]
          exact congrArg (splitLinesAux [] c0 ++ ·) hj
    have hE2 : (splitLines (c2 ++ joinNL t)).map trimEnd
        = (splitLines c0).map trimEnd ++ t := by
      rw [hsplit, List.map_append]
      have hmt : t.map trimEnd = t := by
        rw [show t.map trimEnd = t.map id from
          List.map_congr_left (fun l hl => (h6 l hl).1), List.map_id]
      rw [hmt]
      by_cases hcc : (!c0.isEmpty && !endsWithNL c0) = true
      · have hc2e : c2 = c0 ++ ['\n'] := by rw [hc2, if_pos hcc]
        have h00 : ¬ c0.isEmpty = true := by
          revert hcc; cases c0.isEmpty <;> simp
        have hnl : endsWithNL c0 = false := by
          revert hcc h00; cases c0.isEmpty <;> cases endsWithNL c0 <;> simp
        rw [hc2e]
        show (splitLinesAux [] (c0 ++ ['\n'])).map trimEnd ++ t = _
        rw [splitLinesAux_final_newline c0 [] hnl
          (fun hnil => (h00 (by rw [hnil]; rfl)).elim)]
        rfl
      · rw [show c2 = c0 from by rw [hc2, if_neg hcc]]
    constructor
    · rw [fetch_write_file_eq (some (c2 ++ joinNL t)) specs hspec']
      have hcand2 : ∀ l ∈ candidateLines specs,
          l ∈ (splitLines ((some (c2 ++ joinNL t)).getD [])).map trimEnd := by
        intro l hl
        show l ∈ (splitLines (c2 ++ joinNL t)).map trimEnd
        rw [hE2]
        exact List.mem_append.mpr (hcand l hl)
      have hnoop := processSpecs_noop specs
        ⟨(splitLines ((some (c2 ++ joinNL t)).getD [])).map trimEnd, [], 0, [], []⟩ hcand2
      rw [if_pos (by rw [hnoop.1]; rfl)]
      simp
    · rw [fetch_write_count_eq (some (c2 ++ joinNL t)) specs hspec']
      have hcand2 : ∀ l ∈ candidateLines specs,
          l ∈ (splitLines ((some (c2 ++ joinNL t)).getD [])).map trimEnd := by
        intro l hl
        show l ∈ (splitLines (c2 ++ joinNL t)).map trimEnd
        rw [hE2]
        exact List.mem_append.mpr (hcand l hl)
      exact (processSpecs_noop specs
        ⟨(splitLines ((some (c2 ++ joinNL t)).getD [])).map trimEnd, [], 0, [], []⟩
        hcand2).2.1

/-- Full characterization of a non-write run: the file is untouched and
the outputs come from the name loop seeded with no existing lines. -/
theorem fetch_nofile_eq (f : Option Str) (specs : List (Str × Option Str))
    (h : specs.isEmpty = false) :
    fetch_and_append_github_templates false f specs =
      ⟨f, (processSpecs ⟨[], [], 0, [], []⟩ specs).session,
       (processSpecs ⟨[], [], 0, [], []⟩ specs).count,
       (processSpecs ⟨[], [], 0, [], []⟩ specs).succeeded,
       (processSpecs ⟨[], [], 0, [], []⟩ specs).failed⟩ := by
  simp only [fetch_and_append_github_templates, h, Bool.false_eq_true, if_false]

/-- Reports of a write-mode run, in terms of the name loop. -/
theorem fetch_write_reports_eq (f : Option Str) (specs : List (Str × Option Str))
    (h : specs.isEmpty = false) :
    (fetch_and_append_github_templates true f specs).succeeded
      = (processSpecs ⟨(splitLines (f.getD [])).map trimEnd, [], 0, [], []⟩ specs).succeeded ∧
    (fetch_and_append_github_templates true f specs).failed
      = (processSpecs ⟨(splitLines (f.getD [])).map trimEnd, [], 0, [], []⟩ specs).failed ∧
    (fetch_and_append_github_templates true f specs).stdout = [] := by
  simp only [fetch_and_append_github_templates, h, Bool.false_eq_true, if_false, if_true,
    Option.getD_some]
  by_cases hs : (processSpecs ⟨(splitLines (f.getD [])).map trimEnd, [], 0, [], []⟩
      specs).session.isEmpty = true
  · rw [if_pos hs]
    exact ⟨rfl, rfl, rfl⟩
  · rw [if_neg hs]
    exact ⟨rfl, rfl, rfl⟩

/-! ### Claim C8: per-name fetch failure is non-fatal -/

/-- C8: with at least one successful fetch, the success report lists
exactly the names whose fetch succeeded and the failure report exactly
the names whose fetch failed, both in order; the stdout lines, appended
count and final file are the same as for a run over only the successful
names (the failures contribute nothing and abort nothing). -/
theorem C8_partial_failure_nonfatal (w : Bool) (f : Option Str)
    (specs : List (Str × Option Str))
    (hsucc : specs.filter (fun sp => sp.2.isSome) ≠ []) :
    (fetch_and_append_github_templates w f specs).succeeded
      = (specs.filter (fun sp => sp.2.isSome)).map (fun sp => sp.1) ∧
    (fetch_and_append_github_templates w f specs).failed
      = (specs.filter (fun sp => sp.2.isNone)).map (fun sp => sp.1) ∧
    (fetch_and_append_github_templates w f specs).stdout
      = (fetch_and_append_github_templates w f
          (specs.filter (fun sp => sp.2.isSome))).stdout ∧
    (fetch_and_append_github_templates w f specs).appendedCount
      = (fetch_and_append_github_templates w f
          (specs.filter (fun sp => sp.2.isSome))).appendedCount ∧
    (fetch_and_append_github_templates w f specs).file
      = (fetch_and_append_github_templates w f
          (specs.filter (fun sp => sp.2.isSome))).file := by
  have hF : (specs.filter (fun sp => sp.2.isSome)).isEmpty = false := by
    revert hsucc; cases specs.filter (fun sp => sp.2.isSome) <;> simp
  have hne : specs.isEmpty = false := by
    revert hF
    cases specs with
    | nil => simp
    | cons a l => simp
  cases w with
  | false =>
      rw [fetch_nofile_eq f specs hne,
        fetch_nofile_eq f (specs.filter (fun sp => sp.2.isSome)) hF]
      obtain ⟨t, _, _, h3, h4, _, _, _, _⟩ := processSpecs_spec specs ⟨[], [], 0, [], []⟩
      have hcore := processSpecs_core_filter specs (⟨[], [], 0, [], []⟩ : SessionSt)
      refine ⟨by rw [h3]; simp, by rw [h4]; simp, ?_, ?_, rfl⟩
      · exact congrArg (fun q => q.2.1) hcore
      · exact congrArg (fun q => q.2.2.1) hcore
  | true =>
      obtain ⟨hr1, hr2, hr3⟩ := fetch_write_reports_eq f specs hne
      obtain ⟨hq1, hq2, hq3⟩ :=
        fetch_write_reports_eq f (specs.filter (fun sp => sp.2.isSome)) hF
      obtain ⟨t, _, _, h3, h4, _, _, _, _⟩ :=
        processSpecs_spec specs ⟨(splitLines (f.getD [])).map trimEnd, [], 0, [], []⟩
      have hcore := processSpecs_core_filter specs
        (⟨(splitLines (f.getD [])).map trimEnd, [], 0, [], []⟩ : SessionSt)
      have hsess : (processSpecs ⟨(splitLines (f.getD [])).map trimEnd, [], 0, [], []⟩
            specs).session
          = (processSpecs ⟨(splitLines (f.getD [])).map trimEnd, [], 0, [], []⟩
            (specs.filter (fun sp => sp.2.isSome))).session :=
        congrArg (fun q => q.2.1) hcore
      have hcount : (processSpecs ⟨(splitLines (f.getD [])).map trimEnd, [], 0, [], []⟩
            specs).count
          = (processSpecs ⟨(splitLines (f.getD [])).map trimEnd, [], 0, [], []⟩
            (specs.filter (fun sp => sp.2.isSome))).count :=
        congrArg (fun q => q.2.2.1) hcore
      refine ⟨by rw [hr1, h3]; simp, by rw [hr2, h4]; simp, by rw [hr3, hq3], ?_, ?_⟩
      · rw [fetch_write_count_eq f specs hne,
          fetch_write_count_eq f (specs.filter (fun sp => sp.2.isSome)) hF, hcount]
      · rw [fetch_write_file_eq f specs hne,
          fetch_write_file_eq f (specs.filter (fun sp => sp.2.isSome)) hF, hsess]

/-- C8 witness: three requested names whose second fetch fails. -/
theorem C8_partial_failure_nonfatal_witness :
    ((fetch_and_append_github_templates false none
        [(str "Rust", some (str "target/\n")), (str "Bad", none),
         (str "Node", some (str "node/\n"))]).succeeded
      = ([(str "Rust", some (str "target/\n")), (str "Bad", none),
          (str "Node", some (str "node/\n"))].filter
            (fun sp => sp.2.isSome)).map (fun sp => sp.1) ∧
    (fetch_and_append_github_templates false none
        [(str "Rust", some (str "target/\n")), (str "Bad", none),
         (str "Node", some (str "node/\n"))]).failed
      = ([(str "Rust", some (str "target/\n")), (str "Bad", none),
          (str "Node", some (str "node/\n"))].filter
            (fun sp => sp.2.isNone)).map (fun sp => sp.1) ∧
    (fetch_and_append_github_templates false none
        [(str "Rust", some (str "target/\n")), (str "Bad", none),
         (str "Node", some (str "node/\n"))]).stdout
      = (fetch_and_append_github_templates false none
          ([(str "Rust", some (str "target/\n")), (str "Bad", none),
            (str "Node", some (str "node/\n"))].filter
              (fun sp => sp.2.isSome))).stdout ∧
    (fetch_and_append_github_templates false none
        [(str "Rust", some (str "target/\n")), (str "Bad", none),
         (str "Node", some (str "node/\n"))]).appendedCount
      = (fetch_and_append_github_templates false none
          ([(str "Rust", some (str "target/\n")), (str "Bad", none),
            (str "Node", some (str "node/\n"))].filter
              (fun sp => sp.2.isSome))).appendedCount ∧
    (fetch_and_append_github_templates false none
        [(str "Rust", some (str "target/\n")), (str "Bad", none),
         (str "Node", some (str "node/\n"))]).file
      = (fetch_and_append_github_templates false none
          ([(str "Rust", some (str "target/\n")), (str "Bad", none),
            (str "Node", some (str "node/\n"))].filter
              (fun sp => sp.2.isSome))).file) :=
  C8_partial_failure_nonfatal false none
    [(str "Rust", some (str "target/\n")), (str "Bad", none),
     (str "Node", some (str "node/\n"))] (by decide)

/-! ### Claim C10: the non-write mode never touches the file -/

/-- C10: without the write flag the target file is returned untouched,
and every output of the run (stdout lines, count, both reports) is
independent of the file state — deduplication never consults it. -/
theorem C10_stdout_mode_frame (f g : Option Str) (specs : List (Str × Option Str)) :
    (fetch_and_append_github_templates false f specs).file = f ∧
    (fetch_and_append_github_templates false f specs).stdout
      = (fetch_and_append_github_templates false g specs).stdout ∧
    (fetch_and_append_github_templates false f specs).appendedCount
      = (fetch_and_append_github_templates false g specs).appendedCount ∧
    (fetch_and_append_github_templates false f specs).succeeded
      = (fetch_and_append_github_templates false g specs).succeeded ∧
    (fetch_and_append_github_templates false f specs).failed
      = (fetch_and_append_github_templates false g specs).failed := by
  by_cases h : specs.isEmpty = true
  · have h0 : specs = [] := List.isEmpty_iff.mp h
    subst h0
    exact ⟨rfl, rfl, rfl, rfl, rfl⟩
  · have h' : specs.isEmpty = false := by revert h; cases specs.isEmpty <;> simp
    rw [fetch_nofile_eq f specs h', fetch_nofile_eq g specs h']
    exact ⟨rfl, rfl, rfl, rfl, rfl⟩

end GitIgnore
